import Mathlib

/-!
Sphere primitive of the ray tracer (`src/sphere.h`)

A shallow embedding of `class Sphere` and of the two geometric queries
`hits_ray` and `get_intersection_point`.  The scalar type of the source is
`float`; the embedding is generic in an ordered field `K` and in the square
root function `sqrtf : K → K`, and the theorems are stated in exact real
arithmetic, that is at `K = ℝ` with `sqrtf = Real.sqrt`.

`vector3.h`, `ray.h` and `material.h` are included by `sphere.h` but are not
part of the sources at hand: the vector operations the sphere consumes are
modelled from the interface description of the specification, and the
material is a type parameter.
-/

namespace RayTracer

/-- Modelled from the spec: `vector3.h` is missing.  A `Vector3` is an ordered
triple of scalar components representing either a point or a direction. -/
structure Vector3 (K : Type) where
  x : K
  y : K
  z : K

namespace Vector3

variable {K : Type} [LinearOrderedField K]

/-- Modelled from the spec: the two-point constructor `Vector3(start, end)` of
the missing `vector3.h`, yielding the displacement from `start` to `end`. -/
def fromPoints (start finish : Vector3 K) : Vector3 K :=
  ⟨finish.x - start.x, finish.y - start.y, finish.z - start.z⟩

/-- Modelled from the spec: `cross_product(Vector3) -> Vector3` of the missing
`vector3.h`. -/
def cross_product (a b : Vector3 K) : Vector3 K :=
  ⟨a.y * b.z - a.z * b.y, a.z * b.x - a.x * b.z, a.x * b.y - a.y * b.x⟩

/-- Modelled from the spec: `scalar_product(Vector3) -> scalar` (the dot
product) of the missing `vector3.h`. -/
def scalar_product (a b : Vector3 K) : K :=
  a.x * b.x + a.y * b.y + a.z * b.z

/-- Modelled from the spec: `length() -> scalar`, the Euclidean length, of the
missing `vector3.h`; the square root is the parameter `sqrtf`. -/
def length (sqrtf : K → K) (a : Vector3 K) : K :=
  sqrtf (a.x * a.x + a.y * a.y + a.z * a.z)

/-- Modelled from the spec: `operator*(scalar) -> Vector3` of the missing
`vector3.h`. -/
def scale (a : Vector3 K) (k : K) : Vector3 K :=
  ⟨a.x * k, a.y * k, a.z * k⟩

/-- Modelled from the spec: `operator+(Vector3) -> Vector3` of the missing
`vector3.h`. -/
def add (a b : Vector3 K) : Vector3 K :=
  ⟨a.x + b.x, a.y + b.y, a.z + b.z⟩

instance : HMul (Vector3 K) K (Vector3 K) := ⟨scale⟩

instance : Add (Vector3 K) := ⟨add⟩

end Vector3

/-- Modelled from the spec: `ray.h` is missing.  A `Ray` is an origin point and
a direction vector; nothing is normalised. -/
structure Ray (K : Type) where
  position : Vector3 K
  direction : Vector3 K

namespace Ray

variable {K : Type}

/-- Modelled from the spec: `get_position() -> Vector3` (the origin). -/
def get_position (ray : Ray K) : Vector3 K := ray.position

/-- Modelled from the spec: `get_direction() -> Vector3`. -/
def get_direction (ray : Ray K) : Vector3 K := ray.direction

end Ray

/-- The private fields of `class Sphere`; `Material` stands for the type of
the missing `material.h`. -/
structure Sphere (K : Type) (Material : Type) where
  position : Vector3 K
  radius : K
  material : Material

namespace Sphere

variable {K : Type} [LinearOrderedField K] {Material : Type}

/-- Accessor `Sphere::get_radius`. -/
def get_radius (s : Sphere K Material) : K := s.radius

/-- Accessor `Sphere::get_position`. -/
def get_position (s : Sphere K Material) : Vector3 K := s.position

/-- Accessor `Sphere::get_material`. -/
def get_material (s : Sphere K Material) : Material := s.material

/-- Method `Sphere::hits_ray`: `oc` is the displacement from the ray's position to
the sphere's, and the result is whether the length of its cross product with
the ray's direction is strictly below the radius. -/
def hits_ray (sqrtf : K → K) (s : Sphere K Material) (ray : Ray K) : Bool :=
  let oc := Vector3.fromPoints ray.get_position s.position
  decide ((oc.cross_product ray.get_direction).length sqrtf < s.radius)

/-- The local `center_distance` of `Sphere::get_intersection_point`. -/
def center_distance (sqrtf : K → K) (s : Sphere K Material) (ray : Ray K) : K :=
  let oc := Vector3.fromPoints ray.get_position s.position
  (oc.cross_product ray.get_direction).length sqrtf

/-- The local `position_distance` of `Sphere::get_intersection_point`. -/
def position_distance (s : Sphere K Material) (ray : Ray K) : K :=
  let oc := Vector3.fromPoints ray.get_position s.position
  oc.scalar_product ray.get_direction

/-- The argument handed to `sqrtf` in `Sphere::get_intersection_point`. -/
def sqrt_argument (sqrtf : K → K) (s : Sphere K Material) (ray : Ray K) : K :=
  s.radius * s.radius - center_distance sqrtf s ray * center_distance sqrtf s ray

/-- The local `offset` of `Sphere::get_intersection_point`. -/
def offset (sqrtf : K → K) (s : Sphere K Material) (ray : Ray K) : K :=
  sqrtf (sqrt_argument sqrtf s ray)

/-- Method `Sphere::get_intersection_point`:
`ray.get_position() + ray.get_direction() * (position_distance - offset)`. -/
def get_intersection_point (sqrtf : K → K) (s : Sphere K Material) (ray : Ray K) :
    Vector3 K :=
  ray.get_position + ray.get_direction * (position_distance s ray - offset sqrtf s ray)

end Sphere

/-- Euclidean distance between two points, through the two-point constructor
and `length`. -/
def distance {K : Type} [LinearOrderedField K] (sqrtf : K → K) (a b : Vector3 K) : K :=
  (Vector3.fromPoints a b).length sqrtf

/-- The point of the ray's line at parameter `t`: `origin + direction * t`. -/
def Ray.point_at {K : Type} [LinearOrderedField K] (ray : Ray K) (t : K) : Vector3 K :=
  ray.get_position + ray.get_direction * t

/-- Sum of the squares of the components. -/
def Vector3.norm_sq {K : Type} [LinearOrderedField K] (a : Vector3 K) : K :=
  a.x * a.x + a.y * a.y + a.z * a.z

/-! ## The scenarios of the specification -/

section scenarios

variable (K : Type) [LinearOrderedField K]

/-- Scenarios A and B: sphere at `(0,0,5)`, radius `1`. -/
def sphereAB : Sphere K Unit := ⟨⟨0, 0, 5⟩, 1, ()⟩

/-- Scenario A: ray from the origin along `(0,0,1)`. -/
def rayA : Ray K := ⟨⟨0, 0, 0⟩, ⟨0, 0, 1⟩⟩

/-- Scenario B: ray from the origin along `(0,1,0)`. -/
def rayB : Ray K := ⟨⟨0, 0, 0⟩, ⟨0, 1, 0⟩⟩

/-- Scenario C: sphere at `(2,0,0)`, radius `2`. -/
def sphereC : Sphere K Unit := ⟨⟨2, 0, 0⟩, 2, ()⟩

/-- Scenario C: ray from the origin along `(1,0,0)`. -/
def rayC : Ray K := ⟨⟨0, 0, 0⟩, ⟨1, 0, 0⟩⟩

/-- Scenario D: sphere at `(0,0,10)`, radius `0.5`. -/
def sphereD : Sphere K Unit := ⟨⟨0, 0, 10⟩, 1 / 2, ()⟩

/-- Scenario D: ray from the origin along `(0, 0.001, z)`, where `z` is the
square root of `1 - 0.001²`, so that the direction has unit length. -/
def rayD (sqrtf : K → K) : Ray K :=
  ⟨⟨0, 0, 0⟩, ⟨0, 1 / 1000, sqrtf (1 - 1 / 1000 * (1 / 1000))⟩⟩

/-- A sphere of radius `1` at `(0,0,-5)`: entirely behind the origin of the ray
of scenario A, whose line passes through its centre. -/
def sphereBehind : Sphere K Unit := ⟨⟨0, 0, -5⟩, 1, ()⟩

/-- A ray from `(0,1,0)` along `(0,0,1)`: its line is tangent to the sphere of
scenarios A and B, at `(0,1,5)`. -/
def rayTangent : Ray K := ⟨⟨0, 1, 0⟩, ⟨0, 0, 1⟩⟩

/-- A sphere at `(0,0,5)` whose stored radius is negative, `-1`. -/
def sphereNegative : Sphere K Unit := ⟨⟨0, 0, 5⟩, -1, ()⟩

/-- A ray from `(0, 0.6, 0)` along the unit vector `(0,0,1)`: its line passes at
distance `0.6` from `(0,0,5)`. -/
def rayOffAxis : Ray K := ⟨⟨0, 3 / 5, 0⟩, ⟨0, 0, 1⟩⟩

/-- The ray of `rayOffAxis` with its direction doubled to `(0,0,2)`: the same
line. -/
def rayOffAxisDoubled : Ray K := ⟨⟨0, 3 / 5, 0⟩, ⟨0, 0, 2⟩⟩

end scenarios

/-! ## Shared lemmas (exact real arithmetic) -/

open Vector3 Sphere

section components

variable {K : Type} [LinearOrderedField K] (a b : Vector3 K) (k : K)

lemma add_x : (a + b).x = a.x + b.x := rfl

lemma add_y : (a + b).y = a.y + b.y := rfl

lemma add_z : (a + b).z = a.z + b.z := rfl

lemma mul_x : (a * k).x = a.x * k := rfl

lemma mul_y : (a * k).y = a.y * k := rfl

lemma mul_z : (a * k).z = a.z * k := rfl

end components

lemma norm_sq_nonneg (a : Vector3 ℝ) : 0 ≤ a.norm_sq := by
  unfold Vector3.norm_sq
  nlinarith [mul_self_nonneg a.x, mul_self_nonneg a.y, mul_self_nonneg a.z]

lemma length_eq_sqrt (a : Vector3 ℝ) : a.length Real.sqrt = Real.sqrt a.norm_sq := rfl

lemma length_nonneg (a : Vector3 ℝ) : 0 ≤ a.length Real.sqrt :=
  Real.sqrt_nonneg _

lemma length_mul_self (a : Vector3 ℝ) :
    a.length Real.sqrt * a.length Real.sqrt = a.norm_sq := by
  rw [length_eq_sqrt]
  exact Real.mul_self_sqrt (norm_sq_nonneg a)

lemma norm_sq_of_unit {d : Vector3 ℝ} (hd : d.length Real.sqrt = 1) : d.norm_sq = 1 := by
  have h := length_mul_self d
  rw [hd] at h
  linarith

lemma hits_ray_iff {M : Type} (s : Sphere ℝ M) (ray : Ray ℝ) :
    hits_ray Real.sqrt s ray = true ↔ center_distance Real.sqrt s ray < s.radius := by
  simp [hits_ray, center_distance]

lemma hits_ray_eq_false_iff {M : Type} (s : Sphere ℝ M) (ray : Ray ℝ) :
    hits_ray Real.sqrt s ray = false ↔ s.radius ≤ center_distance Real.sqrt s ray := by
  simp [hits_ray, center_distance]

lemma center_distance_nonneg {M : Type} (s : Sphere ℝ M) (ray : Ray ℝ) :
    0 ≤ center_distance Real.sqrt s ray :=
  length_nonneg _

/-- Lagrange identity for a unit direction: the squared cross-product length
is `|oc|² - (oc . d)²`. -/
lemma center_distance_sq {M : Type} (s : Sphere ℝ M) (ray : Ray ℝ)
    (hd : ray.direction.length Real.sqrt = 1) :
    center_distance Real.sqrt s ray * center_distance Real.sqrt s ray
      = (fromPoints ray.position s.position).norm_sq
        - position_distance s ray * position_distance s ray := by
  have h1 := norm_sq_of_unit hd
  unfold center_distance
  rw [length_mul_self]
  simp only [Vector3.norm_sq, position_distance, fromPoints, cross_product, scalar_product,
    Ray.get_position, Ray.get_direction] at *
  linear_combination
    ((s.position.x - ray.position.x) * (s.position.x - ray.position.x)
      + (s.position.y - ray.position.y) * (s.position.y - ray.position.y)
      + (s.position.z - ray.position.z) * (s.position.z - ray.position.z)) * h1

/-- Squared distance from the centre to the point of the line at parameter `t`,
for a unit direction. -/
lemma norm_sq_point_at {M : Type} (s : Sphere ℝ M) (ray : Ray ℝ)
    (hd : ray.direction.length Real.sqrt = 1) (t : ℝ) :
    (fromPoints (ray.point_at t) s.position).norm_sq
      = center_distance Real.sqrt s ray * center_distance Real.sqrt s ray
        + (t - position_distance s ray) * (t - position_distance s ray) := by
  have h1 := norm_sq_of_unit hd
  rw [center_distance_sq s ray hd]
  simp only [Vector3.norm_sq, position_distance, fromPoints, scalar_product, Ray.point_at,
    Ray.get_position, Ray.get_direction, add_x, add_y, add_z, mul_x, mul_y, mul_z] at *
  linear_combination (t * t) * h1

lemma distance_nonneg (a b : Vector3 ℝ) : 0 ≤ distance Real.sqrt a b :=
  length_nonneg _

lemma distance_mul_self {M : Type} (s : Sphere ℝ M) (ray : Ray ℝ)
    (hd : ray.direction.length Real.sqrt = 1) (t : ℝ) :
    distance Real.sqrt (ray.point_at t) s.position * distance Real.sqrt (ray.point_at t) s.position
      = center_distance Real.sqrt s ray * center_distance Real.sqrt s ray
        + (t - position_distance s ray) * (t - position_distance s ray) := by
  unfold distance
  rw [length_mul_self, norm_sq_point_at s ray hd t]

/-- No point of the line is closer to the centre than `center_distance`. -/
lemma center_distance_le_distance {M : Type} (s : Sphere ℝ M) (ray : Ray ℝ)
    (hd : ray.direction.length Real.sqrt = 1) (t : ℝ) :
    center_distance Real.sqrt s ray ≤ distance Real.sqrt (ray.point_at t) s.position := by
  have h := distance_mul_self s ray hd t
  have h0 := distance_nonneg (ray.point_at t) s.position
  have h1 := center_distance_nonneg s ray
  nlinarith [mul_self_nonneg (t - position_distance s ray)]

/-- The distance `center_distance` is attained at parameter `position_distance`. -/
lemma distance_at_foot {M : Type} (s : Sphere ℝ M) (ray : Ray ℝ)
    (hd : ray.direction.length Real.sqrt = 1) :
    distance Real.sqrt (ray.point_at (position_distance s ray)) s.position
      = center_distance Real.sqrt s ray := by
  have h := distance_mul_self s ray hd (position_distance s ray)
  have h0 := distance_nonneg (ray.point_at (position_distance s ray)) s.position
  have h1 := center_distance_nonneg s ray
  nlinarith

lemma radius_pos_of_hit {M : Type} (s : Sphere ℝ M) (ray : Ray ℝ)
    (hh : hits_ray Real.sqrt s ray = true) : 0 < s.radius :=
  lt_of_le_of_lt (center_distance_nonneg s ray) ((hits_ray_iff s ray).1 hh)

/-- Under the `hits_ray` precondition the square root is taken of a
non-negative number. -/
lemma sqrt_argument_nonneg {M : Type} (s : Sphere ℝ M) (ray : Ray ℝ)
    (hh : hits_ray Real.sqrt s ray = true) : 0 ≤ sqrt_argument Real.sqrt s ray := by
  have h := (hits_ray_iff s ray).1 hh
  have h1 := center_distance_nonneg s ray
  unfold sqrt_argument
  nlinarith

lemma offset_nonneg {M : Type} (s : Sphere ℝ M) (ray : Ray ℝ) :
    0 ≤ offset Real.sqrt s ray :=
  Real.sqrt_nonneg _

lemma offset_mul_self {M : Type} (s : Sphere ℝ M) (ray : Ray ℝ)
    (hh : hits_ray Real.sqrt s ray = true) :
    offset Real.sqrt s ray * offset Real.sqrt s ray
      = s.radius * s.radius
        - center_distance Real.sqrt s ray * center_distance Real.sqrt s ray := by
  unfold offset
  rw [Real.mul_self_sqrt (sqrt_argument_nonneg s ray hh)]
  rfl

lemma get_intersection_point_eq {M : Type} (s : Sphere ℝ M) (ray : Ray ℝ) :
    get_intersection_point Real.sqrt s ray
      = ray.point_at (position_distance s ray - offset Real.sqrt s ray) := rfl

/-- The returned point is on the surface. -/
lemma distance_get_intersection_point {M : Type} (s : Sphere ℝ M) (ray : Ray ℝ)
    (hd : ray.direction.length Real.sqrt = 1) (hh : hits_ray Real.sqrt s ray = true) :
    distance Real.sqrt (get_intersection_point Real.sqrt s ray) s.position = s.radius := by
  rw [get_intersection_point_eq]
  have h := distance_mul_self s ray hd (position_distance s ray - offset Real.sqrt s ray)
  have ho := offset_mul_self s ray hh
  have h0 := distance_nonneg
    (ray.point_at (position_distance s ray - offset Real.sqrt s ray)) s.position
  have hr := radius_pos_of_hit s ray hh
  nlinarith

/-- Every parameter at which the line meets the surface is at least
`position_distance - offset`. -/
lemma near_parameter_le {M : Type} (s : Sphere ℝ M) (ray : Ray ℝ)
    (hd : ray.direction.length Real.sqrt = 1) (hh : hits_ray Real.sqrt s ray = true)
    (t : ℝ) (ht : distance Real.sqrt (ray.point_at t) s.position = s.radius) :
    position_distance s ray - offset Real.sqrt s ray ≤ t := by
  have h := distance_mul_self s ray hd t
  rw [ht] at h
  have ho := offset_mul_self s ray hh
  have hn := offset_nonneg s ray
  by_contra hlt
  push_neg at hlt
  nlinarith

lemma rayA_unit : (rayA ℝ).direction.length Real.sqrt = 1 := by
  simp [rayA, Vector3.length]

lemma hits_ray_scenarioA : hits_ray Real.sqrt (sphereAB ℝ) (rayA ℝ) = true := by
  simp [hits_ray, rayA, sphereAB, Vector3.length, fromPoints, cross_product,
    Ray.get_position, Ray.get_direction]

lemma hits_ray_sphereBehind : hits_ray Real.sqrt (sphereBehind ℝ) (rayA ℝ) = true := by
  simp [hits_ray, rayA, sphereBehind, Vector3.length, fromPoints, cross_product,
    Ray.get_position, Ray.get_direction]

lemma get_intersection_point_sphereBehind_z :
    (get_intersection_point Real.sqrt (sphereBehind ℝ) (rayA ℝ)).z = -6 := by
  simp [get_intersection_point, offset, sqrt_argument, center_distance, position_distance,
    rayA, sphereBehind, Vector3.length, fromPoints, cross_product, scalar_product,
    Ray.get_position, Ray.get_direction, add_z, mul_z]
  norm_num

/-- When the centre is not behind the origin and the origin is not strictly
inside the sphere, the parameter of the returned point is non-negative. -/
lemma near_parameter_nonneg {M : Type} (s : Sphere ℝ M) (ray : Ray ℝ)
    (hd : ray.direction.length Real.sqrt = 1) (hh : hits_ray Real.sqrt s ray = true)
    (hfront : 0 ≤ position_distance s ray)
    (hout : s.radius ≤ distance Real.sqrt ray.position s.position) :
    0 ≤ position_distance s ray - offset Real.sqrt s ray := by
  have hc := center_distance_sq s ray hd
  have ho := offset_mul_self s ray hh
  have hn := offset_nonneg s ray
  have hr := radius_pos_of_hit s ray hh
  have hD : distance Real.sqrt ray.position s.position
      * distance Real.sqrt ray.position s.position
      = (fromPoints ray.position s.position).norm_sq := length_mul_self _
  have h0 := distance_nonneg ray.position s.position
  by_contra hlt
  push_neg at hlt
  nlinarith

lemma rayB_unit : (rayB ℝ).direction.length Real.sqrt = 1 := by
  simp [rayB, Vector3.length]

lemma rayC_unit : (rayC ℝ).direction.length Real.sqrt = 1 := by
  simp [rayC, Vector3.length]

lemma hits_ray_scenarioB : hits_ray Real.sqrt (sphereAB ℝ) (rayB ℝ) = false := by
  simp [hits_ray, rayB, sphereAB, Vector3.length, fromPoints, cross_product,
    Ray.get_position, Ray.get_direction]

lemma hits_ray_scenarioC : hits_ray Real.sqrt (sphereC ℝ) (rayC ℝ) = true := by
  simp [hits_ray, rayC, sphereC, Vector3.length, fromPoints, cross_product,
    Ray.get_position, Ray.get_direction]

lemma center_distance_tangent : center_distance Real.sqrt (sphereAB ℝ) (rayTangent ℝ) = 1 := by
  simp [center_distance, rayTangent, sphereAB, Vector3.length, fromPoints, cross_product,
    Ray.get_position, Ray.get_direction]

/-- When `hits_ray` is false for a positive radius the argument of the square
root is not positive. -/
lemma sqrt_argument_nonpos {M : Type} (s : Sphere ℝ M) (ray : Ray ℝ)
    (hr : 0 < s.radius) (hh : hits_ray Real.sqrt s ray = false) :
    sqrt_argument Real.sqrt s ray ≤ 0 := by
  have h := (hits_ray_eq_false_iff s ray).1 hh
  unfold sqrt_argument
  nlinarith

lemma sqrt_argument_neg_iff {M : Type} (s : Sphere ℝ M) (ray : Ray ℝ)
    (hr : 0 < s.radius) :
    sqrt_argument Real.sqrt s ray < 0 ↔ s.radius < center_distance Real.sqrt s ray := by
  have h1 := center_distance_nonneg s ray
  unfold sqrt_argument
  constructor
  · intro h
    by_contra hle
    push_neg at hle
    nlinarith
  · intro h
    nlinarith

/-- Moving the origin along the direction leaves the cross product unchanged. -/
lemma cross_product_slide (o c d : Vector3 ℝ) (k : ℝ) :
    (fromPoints (o + d * k) c).cross_product d = (fromPoints o c).cross_product d := by
  simp only [cross_product, fromPoints, add_x, add_y, add_z, mul_x, mul_y, mul_z,
    Vector3.mk.injEq]
  refine ⟨by ring, by ring, by ring⟩

/-- Reversing the direction leaves the length of the cross product unchanged. -/
lemma length_cross_product_reverse (a d : Vector3 ℝ) :
    (a.cross_product ⟨-d.x, -d.y, -d.z⟩).length Real.sqrt
      = (a.cross_product d).length Real.sqrt := by
  simp only [cross_product, Vector3.length]
  congr 1
  ring

/-- A line through the centre: the cross product vanishes. -/
lemma center_distance_through_center {M : Type} (s : Sphere ℝ M) (ray : Ray ℝ) (k : ℝ)
    (hk : fromPoints ray.position s.position = ray.direction * k) :
    center_distance Real.sqrt s ray = 0 := by
  have hx := congrArg Vector3.x hk
  have hy := congrArg Vector3.y hk
  have hz := congrArg Vector3.z hk
  simp only [fromPoints, mul_x, mul_y, mul_z] at hx hy hz
  have h0 : ((fromPoints ray.get_position s.position).cross_product
      ray.get_direction).norm_sq = 0 := by
    simp only [Vector3.norm_sq, cross_product, fromPoints, Ray.get_position,
      Ray.get_direction, hx, hy, hz]
    ring
  unfold center_distance
  rw [length_eq_sqrt, h0, Real.sqrt_zero]

lemma position_distance_through_center {M : Type} (s : Sphere ℝ M) (ray : Ray ℝ) (k : ℝ)
    (hd : ray.direction.length Real.sqrt = 1)
    (hk : fromPoints ray.position s.position = ray.direction * k) :
    position_distance s ray = k := by
  have h1 := norm_sq_of_unit hd
  unfold position_distance
  simp only [Ray.get_position, Ray.get_direction]
  rw [hk]
  simp only [scalar_product, Vector3.norm_sq, mul_x, mul_y, mul_z] at *
  linear_combination k * h1

lemma offset_through_center {M : Type} (s : Sphere ℝ M) (ray : Ray ℝ) (k : ℝ)
    (hr : 0 < s.radius)
    (hk : fromPoints ray.position s.position = ray.direction * k) :
    offset Real.sqrt s ray = s.radius := by
  unfold offset sqrt_argument
  rw [center_distance_through_center s ray k hk, mul_zero, sub_zero]
  exact Real.sqrt_mul_self hr.le

lemma rayD_unit : (rayD ℝ Real.sqrt).direction.length Real.sqrt = 1 := by
  have hz : Real.sqrt (1 - 1 / 1000 * (1 / 1000)) * Real.sqrt (1 - 1 / 1000 * (1 / 1000))
      = 1 - 1 / 1000 * (1 / 1000) := Real.mul_self_sqrt (by norm_num)
  simp only [rayD, Vector3.length]
  rw [hz]
  norm_num

lemma center_distance_scenarioD :
    center_distance Real.sqrt (sphereD ℝ) (rayD ℝ Real.sqrt) = 1 / 100 := by
  simp only [center_distance, sphereD, rayD, Vector3.length, fromPoints, cross_product,
    Ray.get_position, Ray.get_direction]
  have h : ((0 - 0) * Real.sqrt (1 - 1 / 1000 * (1 / 1000)) - (10 - 0) * (1 / 1000))
        * ((0 - 0) * Real.sqrt (1 - 1 / 1000 * (1 / 1000)) - (10 - 0) * (1 / 1000))
      + ((10 - 0) * 0 - (0 - 0) * Real.sqrt (1 - 1 / 1000 * (1 / 1000)))
        * ((10 - 0) * 0 - (0 - 0) * Real.sqrt (1 - 1 / 1000 * (1 / 1000)))
      + ((0 - 0) * (1 / 1000) - (0 - 0) * 0) * ((0 - 0) * (1 / 1000) - (0 - 0) * 0)
      = (1 / 100 : ℝ) * (1 / 100) := by ring
  rw [h]
  exact Real.sqrt_mul_self (by norm_num)

/-! ## Claims -/

/-- C1: for a unit-length direction, if some point `origin + direction * t` of
the ray's line lies at distance strictly less than the radius from the
centre, then `hits_ray` returns true. -/
theorem hits_ray_of_line_through_interior {M : Type} (s : Sphere ℝ M) (ray : Ray ℝ)
    (hd : ray.direction.length Real.sqrt = 1) (t : ℝ)
    (h : distance Real.sqrt (ray.point_at t) s.position < s.radius) :
    hits_ray Real.sqrt s ray = true :=
  (hits_ray_iff s ray).2 (lt_of_le_of_lt (center_distance_le_distance s ray hd t) h)

/-- Witness of C1: the centre `(0,0,5)` itself lies on the line of the ray of
scenario A, at parameter `5`. -/
theorem hits_ray_of_line_through_interior_witness :
    (rayA ℝ).direction.length Real.sqrt = 1
      ∧ distance Real.sqrt ((rayA ℝ).point_at 5) (sphereAB ℝ).position < (sphereAB ℝ).radius
      ∧ hits_ray Real.sqrt (sphereAB ℝ) (rayA ℝ) = true := by
  have hd : (rayA ℝ).direction.length Real.sqrt = 1 := by
    simp [rayA, Vector3.length]
  have h : distance Real.sqrt ((rayA ℝ).point_at 5) (sphereAB ℝ).position
      < (sphereAB ℝ).radius := by
    simp [rayA, sphereAB, distance, Ray.point_at, Ray.get_position, Ray.get_direction,
      Vector3.length, fromPoints, add_x, add_y, add_z, mul_x, mul_y, mul_z]
  exact ⟨hd, h, hits_ray_of_line_through_interior (sphereAB ℝ) (rayA ℝ) hd 5 h⟩

/-- C2: for a unit-length direction, if every point of the ray's line lies at
distance at least the radius from the centre (perpendicular distance equal to
or greater than the radius), then `hits_ray` returns false. -/
theorem hits_ray_false_of_line_outside {M : Type} (s : Sphere ℝ M) (ray : Ray ℝ)
    (hd : ray.direction.length Real.sqrt = 1)
    (h : ∀ t : ℝ, s.radius ≤ distance Real.sqrt (ray.point_at t) s.position) :
    hits_ray Real.sqrt s ray = false := by
  rw [hits_ray_eq_false_iff, ← distance_at_foot s ray hd]
  exact h _

/-- Witness of C2, scenario B: sphere at `(0,0,5)` of radius `1`, ray from the
origin along `(0,1,0)`; `hits_ray` is false. -/
theorem hits_ray_false_of_line_outside_witness :
    (rayB ℝ).direction.length Real.sqrt = 1
      ∧ (∀ t : ℝ, (sphereAB ℝ).radius
          ≤ distance Real.sqrt ((rayB ℝ).point_at t) (sphereAB ℝ).position)
      ∧ hits_ray Real.sqrt (sphereAB ℝ) (rayB ℝ) = false := by
  have hd : (rayB ℝ).direction.length Real.sqrt = 1 := by
    simp [rayB, Vector3.length]
  have h : ∀ t : ℝ, (sphereAB ℝ).radius
      ≤ distance Real.sqrt ((rayB ℝ).point_at t) (sphereAB ℝ).position := by
    intro t
    simp only [rayB, sphereAB, distance, Ray.point_at, Ray.get_position, Ray.get_direction,
      Vector3.length, fromPoints, add_x, add_y, add_z, mul_x, mul_y, mul_z]
    rw [Real.le_sqrt' (by norm_num)]
    nlinarith [mul_self_nonneg t]
  exact ⟨hd, h, hits_ray_false_of_line_outside (sphereAB ℝ) (rayB ℝ) hd h⟩

/-- C3: for a unit-length direction and a ray with `hits_ray` true, the point
returned by `get_intersection_point` lies on the sphere's surface: its
distance to the sphere's position equals the radius exactly. -/
theorem get_intersection_point_on_surface {M : Type} (s : Sphere ℝ M) (ray : Ray ℝ)
    (hd : ray.direction.length Real.sqrt = 1) (hh : hits_ray Real.sqrt s ray = true) :
    distance Real.sqrt (get_intersection_point Real.sqrt s ray) s.get_position
      = s.get_radius :=
  distance_get_intersection_point s ray hd hh

/-- C4: for a unit-length direction and a ray with `hits_ray` true,
`get_intersection_point` is `origin + direction * t0` for a parameter `t0`
(namely `position_distance - offset`) at which the line meets the surface and
which is the least such parameter: every `t` with
`|origin + direction * t - center| = radius` satisfies `t0 ≤ t`. -/
theorem get_intersection_point_least_parameter {M : Type} (s : Sphere ℝ M) (ray : Ray ℝ)
    (hd : ray.direction.length Real.sqrt = 1) (hh : hits_ray Real.sqrt s ray = true) :
    ∃ t0 : ℝ, t0 = position_distance s ray - offset Real.sqrt s ray
      ∧ get_intersection_point Real.sqrt s ray = ray.position + ray.direction * t0
      ∧ distance Real.sqrt (ray.position + ray.direction * t0) s.position = s.radius
      ∧ ∀ t : ℝ, distance Real.sqrt (ray.position + ray.direction * t) s.position = s.radius
          → t0 ≤ t :=
  ⟨_, rfl, rfl, distance_get_intersection_point s ray hd hh,
    fun t ht => near_parameter_le s ray hd hh t ht⟩

/-- Witness of C3, scenario A: the returned point is at distance `1` from
`(0,0,5)`. -/
theorem get_intersection_point_on_surface_witness :
    distance Real.sqrt (get_intersection_point Real.sqrt (sphereAB ℝ) (rayA ℝ))
        (sphereAB ℝ).get_position
      = (sphereAB ℝ).get_radius :=
  get_intersection_point_on_surface (sphereAB ℝ) (rayA ℝ) rayA_unit hits_ray_scenarioA

/-- Witness of C4, scenario A. -/
theorem get_intersection_point_least_parameter_witness :
    ∃ t0 : ℝ, t0 = position_distance (sphereAB ℝ) (rayA ℝ)
          - offset Real.sqrt (sphereAB ℝ) (rayA ℝ)
      ∧ get_intersection_point Real.sqrt (sphereAB ℝ) (rayA ℝ)
          = (rayA ℝ).position + (rayA ℝ).direction * t0
      ∧ distance Real.sqrt ((rayA ℝ).position + (rayA ℝ).direction * t0)
          (sphereAB ℝ).position = (sphereAB ℝ).radius
      ∧ ∀ t : ℝ, distance Real.sqrt ((rayA ℝ).position + (rayA ℝ).direction * t)
          (sphereAB ℝ).position = (sphereAB ℝ).radius → t0 ≤ t :=
  get_intersection_point_least_parameter (sphereAB ℝ) (rayA ℝ) rayA_unit hits_ray_scenarioA

/-- C5 fails as stated: for the sphere of radius `1` at `(0,0,-5)` and the ray
from the origin along `(0,0,1)` the direction has unit length and `hits_ray`
is true, but the returned point `(0,0,-6)` is `origin + direction * t` for no
`t ≥ 0`. -/
theorem get_intersection_point_not_forward :
    (rayA ℝ).direction.length Real.sqrt = 1
      ∧ hits_ray Real.sqrt (sphereBehind ℝ) (rayA ℝ) = true
      ∧ ¬ ∃ t : ℝ, 0 ≤ t
          ∧ get_intersection_point Real.sqrt (sphereBehind ℝ) (rayA ℝ)
              = (rayA ℝ).position + (rayA ℝ).direction * t
          ∧ ∀ u : ℝ, 0 ≤ u → u < t →
              distance Real.sqrt ((rayA ℝ).position + (rayA ℝ).direction * u)
                (sphereBehind ℝ).position ≠ (sphereBehind ℝ).radius := by
  refine ⟨rayA_unit, hits_ray_sphereBehind, ?_⟩
  rintro ⟨t, ht, hp, -⟩
  have hz := congrArg Vector3.z hp
  rw [get_intersection_point_sphereBehind_z] at hz
  simp [rayA, add_z, mul_z] at hz
  linarith

/-- C5, amended: for a unit-length direction and a ray with `hits_ray` true,
if moreover the centre is not behind the origin (`(c - o) . d ≥ 0`) and the
origin is not strictly inside the sphere (`|c - o| ≥ r`), then the returned
point is `origin + direction * t` with `t ≥ 0` and no point
`origin + direction * u` with `0 ≤ u < t` lies on the surface. -/
theorem get_intersection_point_nearest_forward {M : Type} (s : Sphere ℝ M) (ray : Ray ℝ)
    (hd : ray.direction.length Real.sqrt = 1) (hh : hits_ray Real.sqrt s ray = true)
    (hfront : 0 ≤ (fromPoints ray.position s.position).scalar_product ray.direction)
    (hout : s.radius ≤ distance Real.sqrt ray.position s.position) :
    ∃ t : ℝ, 0 ≤ t
      ∧ get_intersection_point Real.sqrt s ray = ray.position + ray.direction * t
      ∧ ∀ u : ℝ, 0 ≤ u → u < t →
          distance Real.sqrt (ray.position + ray.direction * u) s.position ≠ s.radius :=
  ⟨position_distance s ray - offset Real.sqrt s ray,
    near_parameter_nonneg s ray hd hh hfront hout, rfl,
    fun u _ hu hsurf => absurd (near_parameter_le s ray hd hh u hsurf) (not_le.2 hu)⟩

/-- Witness of C5 amended, scenario A: the origin is outside the sphere at
`(0,0,5)` and the centre lies ahead. -/
theorem get_intersection_point_nearest_forward_witness :
    ∃ t : ℝ, 0 ≤ t
      ∧ get_intersection_point Real.sqrt (sphereAB ℝ) (rayA ℝ)
          = (rayA ℝ).position + (rayA ℝ).direction * t
      ∧ ∀ u : ℝ, 0 ≤ u → u < t →
          distance Real.sqrt ((rayA ℝ).position + (rayA ℝ).direction * u)
            (sphereAB ℝ).position ≠ (sphereAB ℝ).radius :=
  get_intersection_point_nearest_forward (sphereAB ℝ) (rayA ℝ) rayA_unit hits_ray_scenarioA
    (by simp [rayA, sphereAB, fromPoints, scalar_product])
    (by
      simp only [rayA, sphereAB, distance, Vector3.length, fromPoints]
      rw [Real.le_sqrt' (by norm_num)]
      norm_num)

/-- C6: for every sphere and every ray (any direction) with `hits_ray` true,
the argument `radius * radius - center_distance * center_distance` of the
square root in `get_intersection_point` is non-negative. -/
theorem sqrt_argument_nonneg_of_hits_ray {M : Type} (s : Sphere ℝ M) (ray : Ray ℝ)
    (hh : hits_ray Real.sqrt s ray = true) :
    0 ≤ s.radius * s.radius
        - center_distance Real.sqrt s ray * center_distance Real.sqrt s ray
      ∧ get_intersection_point Real.sqrt s ray
          = ray.position + ray.direction * (position_distance s ray
              - Real.sqrt (s.radius * s.radius
                  - center_distance Real.sqrt s ray * center_distance Real.sqrt s ray)) :=
  ⟨sqrt_argument_nonneg s ray hh, rfl⟩

/-- Witness of C6, scenario C. -/
theorem sqrt_argument_nonneg_of_hits_ray_witness :
    0 ≤ (sphereC ℝ).radius * (sphereC ℝ).radius
        - center_distance Real.sqrt (sphereC ℝ) (rayC ℝ)
          * center_distance Real.sqrt (sphereC ℝ) (rayC ℝ) :=
  (sqrt_argument_nonneg_of_hits_ray (sphereC ℝ) (rayC ℝ) hits_ray_scenarioC).1

/-- C7 fails as stated: the ray from `(0,1,0)` along `(0,0,1)` is tangent to
the sphere of radius `1` at `(0,0,5)`; the radius is positive and `hits_ray`
is false, but the argument of the square root is `0`, not negative. -/
theorem sqrt_argument_zero_at_tangency :
    0 < (sphereAB ℝ).radius
      ∧ hits_ray Real.sqrt (sphereAB ℝ) (rayTangent ℝ) = false
      ∧ ¬ sqrt_argument Real.sqrt (sphereAB ℝ) (rayTangent ℝ) < 0 := by
  refine ⟨by simp [sphereAB], ?_, ?_⟩
  · rw [hits_ray_eq_false_iff, center_distance_tangent]
    simp [sphereAB]
  · unfold sqrt_argument
    rw [center_distance_tangent]
    simp [sphereAB]

/-- C7, amended: for every sphere with positive radius and every ray with
`hits_ray` false, the argument of the square root in `get_intersection_point`
is not positive; it is negative exactly when `center_distance` strictly
exceeds the radius (at tangency it is zero). -/
theorem sqrt_argument_nonpos_of_miss {M : Type} (s : Sphere ℝ M) (ray : Ray ℝ)
    (hr : 0 < s.radius) (hh : hits_ray Real.sqrt s ray = false) :
    sqrt_argument Real.sqrt s ray ≤ 0
      ∧ (sqrt_argument Real.sqrt s ray < 0 ↔ s.radius < center_distance Real.sqrt s ray) :=
  ⟨sqrt_argument_nonpos s ray hr hh, sqrt_argument_neg_iff s ray hr⟩

/-- Witness of C7 amended, scenario B. -/
theorem sqrt_argument_nonpos_of_miss_witness :
    sqrt_argument Real.sqrt (sphereAB ℝ) (rayB ℝ) ≤ 0
      ∧ (sqrt_argument Real.sqrt (sphereAB ℝ) (rayB ℝ) < 0
          ↔ (sphereAB ℝ).radius < center_distance Real.sqrt (sphereAB ℝ) (rayB ℝ)) :=
  sqrt_argument_nonpos_of_miss (sphereAB ℝ) (rayB ℝ) (by simp [sphereAB]) hits_ray_scenarioB

/-- C8: `hits_ray` depends only on the infinite line: for every sphere, every
ray `(o, d)` and every real `k` it gives the same answer for `(o + d * k, d)`
and for `(o, -d)` as for `(o, d)`; in particular, for a unit direction, a
sphere lying entirely behind the origin (`(c - o) . d + r < 0`) is reported as
hit whenever some point of the line is at distance less than the radius from
its centre. -/
theorem hits_ray_depends_on_line_only {M : Type} (s : Sphere ℝ M) (ray : Ray ℝ) :
    (∀ k : ℝ, hits_ray Real.sqrt s ⟨ray.position + ray.direction * k, ray.direction⟩
        = hits_ray Real.sqrt s ray)
      ∧ hits_ray Real.sqrt s
          ⟨ray.position, ⟨-ray.direction.x, -ray.direction.y, -ray.direction.z⟩⟩
        = hits_ray Real.sqrt s ray
      ∧ (ray.direction.length Real.sqrt = 1 →
          position_distance s ray + s.radius < 0 →
          (∃ t : ℝ, distance Real.sqrt (ray.position + ray.direction * t) s.position
            < s.radius) →
          hits_ray Real.sqrt s ray = true) := by
  refine ⟨fun k => ?_, ?_, fun hd _ ht => ?_⟩
  · simp only [hits_ray, Ray.get_position, Ray.get_direction, cross_product_slide]
  · simp only [hits_ray, Ray.get_position, Ray.get_direction, length_cross_product_reverse]
  · obtain ⟨t, ht⟩ := ht
    exact (hits_ray_iff s ray).2 (lt_of_le_of_lt (center_distance_le_distance s ray hd t) ht)

/-- Witness of C8: the sphere of radius `1` at `(0,0,-5)` lies entirely behind
the origin of the ray along `(0,0,1)` and is reported as hit. -/
theorem hits_ray_depends_on_line_only_witness :
    position_distance (sphereBehind ℝ) (rayA ℝ) + (sphereBehind ℝ).radius < 0
      ∧ hits_ray Real.sqrt (sphereBehind ℝ) (rayA ℝ) = true := by
  have hb : position_distance (sphereBehind ℝ) (rayA ℝ) + (sphereBehind ℝ).radius < 0 := by
    simp [position_distance, sphereBehind, rayA, fromPoints, scalar_product,
      Ray.get_position, Ray.get_direction]
  refine ⟨hb, (hits_ray_depends_on_line_only (sphereBehind ℝ) (rayA ℝ)).2.2 rayA_unit hb
    ⟨-5, ?_⟩⟩
  simp [rayA, sphereBehind, distance, Vector3.length, fromPoints, add_x, add_y, add_z,
    mul_x, mul_y, mul_z]

/-- C9: for a sphere of positive radius `r` at `c` and a ray with unit-length
direction `d` whose line passes exactly through the centre (the displacement
from the origin to `c` is `d * k` for some real `k`, possibly zero),
`hits_ray` is true and `get_intersection_point` returns `c - r * d`. -/
theorem get_intersection_point_through_center {M : Type} (s : Sphere ℝ M) (ray : Ray ℝ)
    (hr : 0 < s.radius) (hd : ray.direction.length Real.sqrt = 1) (k : ℝ)
    (hk : fromPoints ray.position s.position = ray.direction * k) :
    hits_ray Real.sqrt s ray = true
      ∧ get_intersection_point Real.sqrt s ray
          = ⟨s.position.x - s.radius * ray.direction.x,
             s.position.y - s.radius * ray.direction.y,
             s.position.z - s.radius * ray.direction.z⟩ := by
  constructor
  · rw [hits_ray_iff, center_distance_through_center s ray k hk]
    exact hr
  · have hx := congrArg Vector3.x hk
    have hy := congrArg Vector3.y hk
    have hz := congrArg Vector3.z hk
    simp only [fromPoints, mul_x, mul_y, mul_z] at hx hy hz
    unfold get_intersection_point
    rw [position_distance_through_center s ray k hd hk, offset_through_center s ray k hr hk]
    show Vector3.add _ (Vector3.scale _ _) = _
    simp only [Vector3.add, Vector3.scale, Ray.get_position, Ray.get_direction,
      Vector3.mk.injEq]
    refine ⟨by linear_combination -hx, by linear_combination -hy, by linear_combination -hz⟩

/-- Witness of C9, scenarios A and C: `(0,0,4)` for the sphere at `(0,0,5)` of
radius `1` and the ray along `(0,0,1)`; `(0,0,0)` for the sphere at `(2,0,0)`
of radius `2` and the ray along `(1,0,0)`. -/
theorem get_intersection_point_through_center_witness :
    (hits_ray Real.sqrt (sphereAB ℝ) (rayA ℝ) = true
        ∧ get_intersection_point Real.sqrt (sphereAB ℝ) (rayA ℝ) = ⟨0, 0, 4⟩)
      ∧ (hits_ray Real.sqrt (sphereC ℝ) (rayC ℝ) = true
        ∧ get_intersection_point Real.sqrt (sphereC ℝ) (rayC ℝ) = ⟨0, 0, 0⟩) := by
  have hA := get_intersection_point_through_center (sphereAB ℝ) (rayA ℝ)
    (by simp [sphereAB]) rayA_unit 5
    (by
      show fromPoints _ _ = Vector3.scale _ _
      simp [sphereAB, rayA, fromPoints, Vector3.scale])
  have hC := get_intersection_point_through_center (sphereC ℝ) (rayC ℝ)
    (by simp [sphereC]) rayC_unit 2
    (by
      show fromPoints _ _ = Vector3.scale _ _
      simp [sphereC, rayC, fromPoints, Vector3.scale])
  refine ⟨⟨hA.1, ?_⟩, ⟨hC.1, ?_⟩⟩
  · rw [hA.2]
    simp only [sphereAB, rayA, Vector3.mk.injEq]
    norm_num
  · rw [hC.2]
    simp only [sphereC, rayC, Vector3.mk.injEq]
    norm_num

/-- C10 fails as stated: in scenario D (sphere at `(0,0,10)` of radius `0.5`,
ray from the origin along the unit vector `(0, 0.001, z)`) the cross-product
length is not greater than `0.5` and `hits_ray` does not return false. -/
theorem hits_ray_scenarioD_not_false :
    (rayD ℝ Real.sqrt).direction.length Real.sqrt = 1
      ∧ ¬ (1 / 2 < center_distance Real.sqrt (sphereD ℝ) (rayD ℝ Real.sqrt))
      ∧ ¬ (hits_ray Real.sqrt (sphereD ℝ) (rayD ℝ Real.sqrt) = false) := by
  refine ⟨rayD_unit, ?_, ?_⟩
  · rw [center_distance_scenarioD]
    norm_num
  · rw [hits_ray_eq_false_iff, center_distance_scenarioD]
    simp only [sphereD]
    norm_num

/-- C10, amended: in scenario D the direction `(0, 0.001, z)` has unit length,
the perpendicular distance from the centre to the line is `0.01`, which is
less than the radius `0.5`, and `hits_ray` returns true. -/
theorem hits_ray_scenarioD :
    (rayD ℝ Real.sqrt).direction.length Real.sqrt = 1
      ∧ center_distance Real.sqrt (sphereD ℝ) (rayD ℝ Real.sqrt) = 1 / 100
      ∧ distance Real.sqrt
          ((rayD ℝ Real.sqrt).point_at (position_distance (sphereD ℝ) (rayD ℝ Real.sqrt)))
          (sphereD ℝ).position = 1 / 100
      ∧ hits_ray Real.sqrt (sphereD ℝ) (rayD ℝ Real.sqrt) = true := by
  refine ⟨rayD_unit, center_distance_scenarioD, ?_, ?_⟩
  · rw [distance_at_foot _ _ rayD_unit, center_distance_scenarioD]
  · rw [hits_ray_iff, center_distance_scenarioD]
    simp only [sphereD]
    norm_num

/-! ## Construction, translation and degenerate radius -/

/-- Translating both end points leaves the displacement unchanged. -/
lemma fromPoints_translate (o c v : Vector3 ℝ) :
    fromPoints (o + v) (c + v) = fromPoints o c := by
  simp only [fromPoints, add_x, add_y, add_z, Vector3.mk.injEq]
  refine ⟨by ring, by ring, by ring⟩

lemma add_add_swap (a v b : Vector3 ℝ) : a + v + b = a + b + v := by
  show Vector3.add (Vector3.add a v) b = Vector3.add (Vector3.add a b) v
  simp only [Vector3.add, Vector3.mk.injEq]
  refine ⟨by ring, by ring, by ring⟩

/-- C11: for every position `p`, radius `r` and material `m`, the sphere
constructed from them satisfies `get_position() = p`, `get_radius() = r` and
`get_material() = m`; the radius is arbitrary (zero and negative included) and
nothing is validated or normalised. -/
theorem constructor_accessors {K : Type} [LinearOrderedField K] {Material : Type}
    (p : Vector3 K) (r : K) (m : Material) :
    (Sphere.mk p r m).get_position = p
      ∧ (Sphere.mk p r m).get_radius = r
      ∧ (Sphere.mk p r m).get_material = m :=
  ⟨rfl, rfl, rfl⟩

/-- C15: translation invariance: for every sphere, ray and vector `v`,
translating both the sphere's position and the ray's origin by `v` leaves
`hits_ray` unchanged and translates the result of `get_intersection_point` by
exactly `v`. -/
theorem translation_invariance {M : Type} (s : Sphere ℝ M) (ray : Ray ℝ) (v : Vector3 ℝ) :
    hits_ray Real.sqrt ⟨s.position + v, s.radius, s.material⟩
        ⟨ray.position + v, ray.direction⟩
      = hits_ray Real.sqrt s ray
      ∧ get_intersection_point Real.sqrt ⟨s.position + v, s.radius, s.material⟩
          ⟨ray.position + v, ray.direction⟩
        = get_intersection_point Real.sqrt s ray + v := by
  constructor
  · simp only [hits_ray, Ray.get_position, Ray.get_direction, fromPoints_translate]
  · simp only [get_intersection_point, position_distance, offset, sqrt_argument,
      center_distance, Ray.get_position, Ray.get_direction, fromPoints_translate]
    exact add_add_swap _ _ _

/-- C16: for every sphere whose radius is zero or negative and for every ray,
`hits_ray` returns false: the cross-product length is never below a
non-positive radius. -/
theorem hits_ray_false_of_radius_nonpos {M : Type} (s : Sphere ℝ M) (ray : Ray ℝ)
    (hr : s.radius ≤ 0) : hits_ray Real.sqrt s ray = false :=
  (hits_ray_eq_false_iff s ray).2 (le_trans hr (center_distance_nonneg s ray))

/-- Witness of C16: the sphere at `(0,0,5)` with stored radius `-1` is not hit
by the ray of scenario A, whose line passes through its centre. -/
theorem hits_ray_false_of_radius_nonpos_witness :
    (sphereNegative ℝ).radius ≤ 0
      ∧ hits_ray Real.sqrt (sphereNegative ℝ) (rayA ℝ) = false :=
  ⟨by simp [sphereNegative],
    hits_ray_false_of_radius_nonpos (sphereNegative ℝ) (rayA ℝ) (by simp [sphereNegative])⟩

/-! ## The foot of the perpendicular and the sign of the parameter -/

lemma rayTangent_unit : (rayTangent ℝ).direction.length Real.sqrt = 1 := by
  simp [rayTangent, Vector3.length]

/-- Pythagoras for a unit direction, with `|oc|` as a length. -/
lemma center_distance_pythagoras {M : Type} (s : Sphere ℝ M) (ray : Ray ℝ)
    (hd : ray.direction.length Real.sqrt = 1) :
    center_distance Real.sqrt s ray * center_distance Real.sqrt s ray
        + position_distance s ray * position_distance s ray
      = (fromPoints ray.position s.position).length Real.sqrt
        * (fromPoints ray.position s.position).length Real.sqrt := by
  rw [length_mul_self, center_distance_sq s ray hd]
  ring

/-- A non-negative parameter forces the centre ahead and the origin outside
the open ball. -/
lemma outside_of_near_parameter_nonneg {M : Type} (s : Sphere ℝ M) (ray : Ray ℝ)
    (hd : ray.direction.length Real.sqrt = 1) (hh : hits_ray Real.sqrt s ray = true)
    (ht : 0 ≤ position_distance s ray - offset Real.sqrt s ray) :
    s.radius ≤ distance Real.sqrt ray.position s.position
      ∧ 0 ≤ position_distance s ray := by
  have hc := center_distance_pythagoras s ray hd
  have ho := offset_mul_self s ray hh
  have hn := offset_nonneg s ray
  have hr := radius_pos_of_hit s ray hh
  have h0 := distance_nonneg ray.position s.position
  have hp : 0 ≤ position_distance s ray := by linarith
  refine ⟨?_, hp⟩
  unfold distance at *
  by_contra hlt
  push_neg at hlt
  nlinarith

/-- C12: for a unit-length direction `d` and `oc = c - o`, the point
`o + d * (oc . d)` is the point of the ray's line closest to `c`, and its
distance to `c` equals the cross-product length `|oc x d|`; equivalently
`center_distance² + position_distance² = |oc|²`. -/
theorem center_distance_is_perpendicular_distance {M : Type} (s : Sphere ℝ M) (ray : Ray ℝ)
    (hd : ray.direction.length Real.sqrt = 1) :
    (∀ t : ℝ,
        distance Real.sqrt
            (ray.position + ray.direction
              * (fromPoints ray.position s.position).scalar_product ray.direction)
            s.position
          ≤ distance Real.sqrt (ray.position + ray.direction * t) s.position)
      ∧ distance Real.sqrt
            (ray.position + ray.direction
              * (fromPoints ray.position s.position).scalar_product ray.direction)
            s.position
          = ((fromPoints ray.position s.position).cross_product ray.direction).length
              Real.sqrt
      ∧ center_distance Real.sqrt s ray * center_distance Real.sqrt s ray
            + position_distance s ray * position_distance s ray
          = (fromPoints ray.position s.position).length Real.sqrt
            * (fromPoints ray.position s.position).length Real.sqrt := by
  refine ⟨fun t => ?_, distance_at_foot s ray hd, center_distance_pythagoras s ray hd⟩
  exact le_of_eq_of_le (distance_at_foot s ray hd) (center_distance_le_distance s ray hd t)

/-- Witness of C12: the sphere at `(0,0,5)` and the ray from `(0,1,0)` along
`(0,0,1)`, whose foot of the perpendicular is `(0,1,5)`. -/
theorem center_distance_is_perpendicular_distance_witness :
    center_distance Real.sqrt (sphereAB ℝ) (rayTangent ℝ)
          * center_distance Real.sqrt (sphereAB ℝ) (rayTangent ℝ)
        + position_distance (sphereAB ℝ) (rayTangent ℝ)
          * position_distance (sphereAB ℝ) (rayTangent ℝ)
      = (fromPoints (rayTangent ℝ).position (sphereAB ℝ).position).length Real.sqrt
        * (fromPoints (rayTangent ℝ).position (sphereAB ℝ).position).length Real.sqrt :=
  (center_distance_is_perpendicular_distance (sphereAB ℝ) (rayTangent ℝ) rayTangent_unit).2.2

/-- C13: for a unit-length direction and a ray with `hits_ray` true, the
returned point is `origin + direction * t` with
`t = position_distance - offset`, and `t` is non-negative if and only if the
origin is not strictly inside the sphere (`|c - o| ≥ r`) and the centre is not
behind the origin (`(c - o) . d ≥ 0`); otherwise `t < 0`. -/
theorem near_parameter_nonneg_iff {M : Type} (s : Sphere ℝ M) (ray : Ray ℝ)
    (hd : ray.direction.length Real.sqrt = 1) (hh : hits_ray Real.sqrt s ray = true) :
    get_intersection_point Real.sqrt s ray
        = ray.position + ray.direction * (position_distance s ray - offset Real.sqrt s ray)
      ∧ (0 ≤ position_distance s ray - offset Real.sqrt s ray
          ↔ s.radius ≤ distance Real.sqrt ray.position s.position
            ∧ 0 ≤ (fromPoints ray.position s.position).scalar_product ray.direction)
      ∧ (¬ (s.radius ≤ distance Real.sqrt ray.position s.position
            ∧ 0 ≤ (fromPoints ray.position s.position).scalar_product ray.direction)
          → position_distance s ray - offset Real.sqrt s ray < 0) := by
  have hiff : 0 ≤ position_distance s ray - offset Real.sqrt s ray
      ↔ s.radius ≤ distance Real.sqrt ray.position s.position
        ∧ 0 ≤ (fromPoints ray.position s.position).scalar_product ray.direction :=
    ⟨fun ht => outside_of_near_parameter_nonneg s ray hd hh ht,
      fun h => near_parameter_nonneg s ray hd hh h.2 h.1⟩
  exact ⟨rfl, hiff, fun h => not_le.1 (fun ht => h (hiff.1 ht))⟩

/-- Witness of C13: for the sphere behind the origin the parameter is negative
(it is `-6`), for want of a centre ahead of the origin. -/
theorem near_parameter_nonneg_iff_witness :
    position_distance (sphereBehind ℝ) (rayA ℝ) - offset Real.sqrt (sphereBehind ℝ) (rayA ℝ)
      < 0 :=
  (near_parameter_nonneg_iff (sphereBehind ℝ) (rayA ℝ) rayA_unit hits_ray_sphereBehind).2.2
    (fun h => absurd h.2 (by
      simp [sphereBehind, rayA, fromPoints, scalar_product]))

/-! ## Directions that are not of unit length -/

lemma norm_sq_pos_of_ne {d : Vector3 ℝ} (hne : d ≠ ⟨0, 0, 0⟩) : 0 < d.norm_sq := by
  rcases d with ⟨x, y, z⟩
  simp only [Vector3.norm_sq]
  by_contra h
  push_neg at h
  have hx : x = 0 :=
    mul_self_eq_zero.1 (le_antisymm
      (by nlinarith [mul_self_nonneg y, mul_self_nonneg z]) (mul_self_nonneg x))
  have hy : y = 0 :=
    mul_self_eq_zero.1 (le_antisymm
      (by nlinarith [mul_self_nonneg x, mul_self_nonneg z]) (mul_self_nonneg y))
  have hz : z = 0 :=
    mul_self_eq_zero.1 (le_antisymm
      (by nlinarith [mul_self_nonneg x, mul_self_nonneg y]) (mul_self_nonneg z))
  exact hne (by rw [hx, hy, hz])

/-- Lagrange identity for an arbitrary direction. -/
lemma center_distance_sq_general {M : Type} (s : Sphere ℝ M) (ray : Ray ℝ) :
    center_distance Real.sqrt s ray * center_distance Real.sqrt s ray
      = (fromPoints ray.position s.position).norm_sq * ray.direction.norm_sq
        - position_distance s ray * position_distance s ray := by
  unfold center_distance
  rw [length_mul_self]
  simp only [Vector3.norm_sq, position_distance, fromPoints, cross_product, scalar_product,
    Ray.get_position, Ray.get_direction]
  ring

/-- Squared distance from the centre to the point of the line at parameter `t`,
multiplied by `|d|²`, for an arbitrary direction. -/
lemma norm_sq_point_at_scaled {M : Type} (s : Sphere ℝ M) (ray : Ray ℝ) (t : ℝ) :
    (fromPoints (ray.point_at t) s.position).norm_sq * ray.direction.norm_sq
      = center_distance Real.sqrt s ray * center_distance Real.sqrt s ray
        + (t * ray.direction.norm_sq - position_distance s ray)
          * (t * ray.direction.norm_sq - position_distance s ray) := by
  rw [center_distance_sq_general]
  simp only [Vector3.norm_sq, position_distance, fromPoints, scalar_product, Ray.point_at,
    Ray.get_position, Ray.get_direction, add_x, add_y, add_z, mul_x, mul_y, mul_z]
  ring

/-- The cross-product length is the distance from the centre to the foot of the
perpendicular, multiplied by the length of the direction. -/
lemma distance_foot_mul_length {M : Type} (s : Sphere ℝ M) (ray : Ray ℝ)
    (hn : 0 < ray.direction.norm_sq) :
    distance Real.sqrt
        (ray.point_at (position_distance s ray / ray.direction.norm_sq)) s.position
      * ray.direction.length Real.sqrt
      = center_distance Real.sqrt s ray := by
  have h := norm_sq_point_at_scaled s ray (position_distance s ray / ray.direction.norm_sq)
  rw [div_mul_cancel₀ _ hn.ne', sub_self, mul_zero, add_zero] at h
  unfold distance
  rw [length_eq_sqrt, length_eq_sqrt, ← Real.sqrt_mul (norm_sq_nonneg _), h]
  exact Real.sqrt_mul_self (center_distance_nonneg s ray)

/-- The foot of the perpendicular is the closest point of the line, for an
arbitrary non-zero direction. -/
lemma distance_foot_le {M : Type} (s : Sphere ℝ M) (ray : Ray ℝ)
    (hn : 0 < ray.direction.norm_sq) (t : ℝ) :
    distance Real.sqrt
        (ray.point_at (position_distance s ray / ray.direction.norm_sq)) s.position
      ≤ distance Real.sqrt (ray.point_at t) s.position := by
  have h0 := norm_sq_point_at_scaled s ray (position_distance s ray / ray.direction.norm_sq)
  rw [div_mul_cancel₀ _ hn.ne', sub_self, mul_zero, add_zero] at h0
  have ht := norm_sq_point_at_scaled s ray t
  unfold distance
  rw [length_eq_sqrt, length_eq_sqrt]
  apply Real.sqrt_le_sqrt
  refine le_of_mul_le_mul_right ?_ hn
  rw [h0, ht]
  nlinarith [mul_self_nonneg (t * ray.direction.norm_sq - position_distance s ray)]

/-- For a non-zero direction the least distance `p` from the centre to the line
exists and `hits_ray` compares `p * |d|` with the radius. -/
lemma exists_least_distance_hits_ray_iff {M : Type} (s : Sphere ℝ M) (ray : Ray ℝ)
    (hne : ray.direction ≠ ⟨0, 0, 0⟩) :
    ∃ p : ℝ,
      IsLeast
          (Set.range fun t : ℝ =>
            distance Real.sqrt (ray.position + ray.direction * t) s.position) p
        ∧ (hits_ray Real.sqrt s ray = true
            ↔ p * ray.direction.length Real.sqrt < s.radius) := by
  have hn := norm_sq_pos_of_ne hne
  refine ⟨distance Real.sqrt
      (ray.point_at (position_distance s ray / ray.direction.norm_sq)) s.position,
    ⟨⟨_, rfl⟩, ?_⟩, ?_⟩
  · rintro y ⟨t, rfl⟩
    exact distance_foot_le s ray hn t
  · rw [hits_ray_iff, distance_foot_mul_length s ray hn]

lemma hits_ray_rayOffAxis : hits_ray Real.sqrt (sphereAB ℝ) (rayOffAxis ℝ) = true := by
  rw [hits_ray_iff]
  simp only [center_distance, sphereAB, rayOffAxis, Vector3.length, fromPoints,
    cross_product, Ray.get_position, Ray.get_direction]
  rw [Real.sqrt_lt' (by norm_num)]
  norm_num

lemma hits_ray_rayOffAxisDoubled :
    hits_ray Real.sqrt (sphereAB ℝ) (rayOffAxisDoubled ℝ) = false := by
  rw [hits_ray_eq_false_iff]
  simp only [center_distance, sphereAB, rayOffAxisDoubled, Vector3.length, fromPoints,
    cross_product, Ray.get_position, Ray.get_direction]
  rw [Real.le_sqrt' (by norm_num)]
  norm_num

/-- C14: `hits_ray` is not invariant under rescaling of the direction.  For
every sphere and every ray with non-zero direction `d`, the distances from the
centre to the points of the ray's line have a least value `p` (the
perpendicular distance from the centre to the line), and `hits_ray` returns
true if and only if `p * |d| < r`.  Doubling the direction can turn a hit into
a miss: the sphere at `(0,0,5)` of radius `1` is hit by the ray from
`(0, 0.6, 0)` along `(0,0,1)` and missed by the same ray along `(0,0,2)`. -/
theorem hits_ray_iff_scaled_distance :
    (∀ (M : Type) (s : Sphere ℝ M) (ray : Ray ℝ), ray.direction ≠ ⟨0, 0, 0⟩ →
        ∃ p : ℝ,
          IsLeast
              (Set.range fun t : ℝ =>
                distance Real.sqrt (ray.position + ray.direction * t) s.position) p
            ∧ (hits_ray Real.sqrt s ray = true
                ↔ p * ray.direction.length Real.sqrt < s.radius))
      ∧ (rayOffAxisDoubled ℝ).position = (rayOffAxis ℝ).position
      ∧ (rayOffAxisDoubled ℝ).direction = (rayOffAxis ℝ).direction * (2 : ℝ)
      ∧ hits_ray Real.sqrt (sphereAB ℝ) (rayOffAxis ℝ) = true
      ∧ hits_ray Real.sqrt (sphereAB ℝ) (rayOffAxisDoubled ℝ) = false := by
  refine ⟨fun M s ray hne => exists_least_distance_hits_ray_iff s ray hne, rfl, ?_,
    hits_ray_rayOffAxis, hits_ray_rayOffAxisDoubled⟩
  show _ = Vector3.scale _ _
  simp [rayOffAxisDoubled, rayOffAxis, Vector3.scale]

/-- Witness of C14: the doubled ray has a non-zero direction. -/
theorem hits_ray_iff_scaled_distance_witness :
    ∃ p : ℝ,
      IsLeast
          (Set.range fun t : ℝ =>
            distance Real.sqrt
              ((rayOffAxisDoubled ℝ).position + (rayOffAxisDoubled ℝ).direction * t)
              (sphereAB ℝ).position) p
        ∧ (hits_ray Real.sqrt (sphereAB ℝ) (rayOffAxisDoubled ℝ) = true
            ↔ p * (rayOffAxisDoubled ℝ).direction.length Real.sqrt < (sphereAB ℝ).radius) :=
  hits_ray_iff_scaled_distance.1 Unit (sphereAB ℝ) (rayOffAxisDoubled ℝ)
    (by
      intro h
      have hz := congrArg Vector3.z h
      simp [rayOffAxisDoubled] at hz)

end RayTracer
